import Mathlib

/-!
Verification of `src/wave_generator.py` (digital_sound).

Shallow embedding conventions:
* numpy float arrays become `List ℚ`; all float arithmetic is idealised as
  exact rational arithmetic.
* Python `int(...)` and numpy `.astype(int)` truncate toward zero: `intPy`.
* `np.sin(2 * pi * x)` is transcendental, so every definition that calls it is
  parameterised by a function `sin2pi : ℚ → ℚ` standing for `x ↦ sin (2πx)`;
  theorems hold for every such function, and concrete instantiations are tied
  back to `Real.sin` where a claim needs it.
* `2 ** e` on floats in `semitone_freq` is modelled over `ℝ` with `Real.rpow`.
* `raise ValueError` becomes `Except.error`.
-/

set_option allowUnsafeReducibility true
attribute [semireducible] Rat.add Rat.mul Rat.div Rat.sub Rat.neg Rat.inv

namespace WaveGenerator

/-- Python `int(q)` / numpy `.astype(int)`: truncation toward zero. -/
def intPy (q : ℚ) : ℤ := if 0 ≤ q then ⌊q⌋ else -⌊-q⌋

/-- `np.clip(x, lo, hi)`: `maximum(minimum(x, hi), lo)`. -/
def clipQ (x lo hi : ℚ) : ℚ := max lo (min x hi)

/-- `np.interp(x, t, w)` with `t = [0, 1, ..., w.length - 1]`:
clamped linear interpolation at the (possibly fractional) index `x`. -/
def interpQ (w : List ℚ) (x : ℚ) : ℚ :=
  if x ≤ 0 then w.getD 0 0
  else if ((w.length : ℚ) - 1) ≤ x then w.getD (w.length - 1) 0
  else
    let j := (⌊x⌋).toNat
    w.getD j 0 + (x - (j : ℚ)) * (w.getD (j + 1) 0 - w.getD j 0)

/-- `np.linspace(a, b, k)` (endpoint included, numpy default). -/
def linspaceQ (a b : ℚ) (k : ℕ) : List ℚ :=
  if k = 0 then []
  else if k = 1 then [a]
  else (List.range k).map (fun (j : ℕ) => a + (b - a) * (j : ℚ) / ((k - 1 : ℕ) : ℚ))

/-- `np.linspace(a, b, k, endpoint=False)`: step `(b - a) / k`. -/
def linspaceNoEndQ (a b : ℚ) (k : ℕ) : List ℚ :=
  (List.range k).map (fun (j : ℕ) => a + (b - a) * (j : ℚ) / (k : ℚ))

/-- `scipy.signal.square(2 * pi * x)` (duty 0.5), as a function of the cycle
fraction `x`: `+1` on the first half of each cycle, `-1` on the second. -/
def squareWave (x : ℚ) : ℚ := if Int.fract x < 1 / 2 then 1 else -1

/-- `scipy.signal.sawtooth(2 * pi * x, 0.5)`: symmetric triangle wave rising
from `-1` to `1` on the first half-cycle and falling back on the second. -/
def triangleWave (x : ℚ) : ℚ :=
  if Int.fract x < 1 / 2 then 4 * Int.fract x - 1 else 3 - 4 * Int.fract x

/-- `fade_samples = int(sample_rate * 0.01)` in `apply_phaser`. -/
def fadeSamples (sample_rate : ℚ) : ℕ := (intPy (sample_rate * (1 / 100))).toNat

/-- The mixing stage of `apply_phaser` (lines 58-78): LFO-modulated delayed
read, clamped and interpolated, mixed 70/30 with the original. Faithful for
nonempty buffers; on an empty buffer the source's `np.interp` raises
(empty sample-point array) while this returns `[]`. -/
def phaserMix (sin2pi : ℚ → ℚ) (wave : List ℚ) (sample_rate depth rate : ℚ) :
    List ℚ :=
  (List.range wave.length).map (fun (i : ℕ) =>
    let lfo := (1 + sin2pi (rate * (i : ℚ) / sample_rate)) / 2
    let delay := lfo * (depth * sample_rate)
    let idx := clipQ ((i : ℚ) - delay) 0 ((wave.length : ℚ) - 1)
    (7 / 10) * wave.getD i 0 + (3 / 10) * interpQ wave idx)

/-- The fade stage of `apply_phaser` (lines 81-87): the first `fs` samples are
multiplied by `linspace(0, 1, fs)` and the last `fs` samples by
`linspace(1, 0, fs)` (the two Python in-place slice multiplications, fused
into one pass; faithful for `fs ≤ length`, the only regime the source can
execute without a numpy broadcast error). -/
def applyFades (out : List ℚ) (fs : ℕ) : List ℚ :=
  let n := out.length
  let fade_in := linspaceQ 0 1 fs
  let fade_out := linspaceQ 1 0 fs
  (List.range n).map (fun i =>
    let a := if i < fs then out.getD i 0 * fade_in.getD i 0 else out.getD i 0
    if n - fs ≤ i then a * fade_out.getD (i - (n - fs)) 0 else a)

/-- `apply_phaser(wave, sample_rate, depth, rate)` (lines 51-89). -/
def apply_phaser (sin2pi : ℚ → ℚ) (wave : List ℚ) (sample_rate depth rate : ℚ) :
    List ℚ :=
  applyFades (phaserMix sin2pi wave sample_rate depth rate) (fadeSamples sample_rate)

/-- `apply_echo(wave, sample_rate, delay_sec, decay)` (lines 92-108): the
decayed copy is added at offset `delay_samples` into a buffer extended by
`delay_samples` zeros, then truncated back to the input length. -/
def apply_echo (wave : List ℚ) (sample_rate delay_sec decay : ℚ) : List ℚ :=
  let delay_samples := (intPy (delay_sec * sample_rate)).toNat
  (List.range wave.length).map (fun i =>
    if delay_samples ≤ i then wave.getD i 0 + decay * wave.getD (i - delay_samples) 0
    else wave.getD i 0)

/-- `apply_chorus(wave, sample_rate, depth, rate, voices)` (lines 111-141).
The Python loop accumulates one delayed copy per voice into
`output = 0.5 * wave`; here the per-voice contributions at index `i` are
written as a list sum, which is the same value. Faithful for nonempty
buffers; on an empty buffer the source's `np.interp` raises while this
returns `[]`. -/
def apply_chorus (sin2pi : ℚ → ℚ) (wave : List ℚ) (sample_rate depth rate : ℚ)
    (voices : ℕ) : List ℚ :=
  (List.range wave.length).map (fun (i : ℕ) =>
    wave.getD i 0 * (1 / 2) +
      ((List.range voices).map (fun (v : ℕ) =>
        let lfo := depth * sin2pi (rate * ((v : ℚ) + 1) * (i : ℚ) / sample_rate)
        let idx := clipQ ((i : ℚ) - ((intPy (lfo * sample_rate) : ℤ) : ℚ)) 0
          ((wave.length : ℚ) - 1)
        interpQ wave idx * (1 / 2 / (voices : ℚ)))).sum)

/-- The waveform dispatch of `generate_waveform` (lines 148-155): the phase
argument `2·π·freq·t` is passed to the shape functions as the cycle fraction
`freq * t`; an unknown kind raises `ValueError`. -/
def rawWave (sin2pi : ℚ → ℚ) (wave_type : String) (freq : ℚ) (t : List ℚ) :
    Except String (List ℚ) :=
  if wave_type = "sine" then .ok (t.map fun x => sin2pi (freq * x))
  else if wave_type = "square" then .ok (t.map fun x => squareWave (freq * x))
  else if wave_type = "triangle" then .ok (t.map fun x => triangleWave (freq * x))
  else .error "Invalid wave_type."

/-- Lines 144-159 of `generate_waveform`: whole-period truncation of the
duration, the half-open time axis, waveform dispatch, and the 0.4 amplitude
scaling of the square wave. -/
def oscillator (sin2pi : ℚ → ℚ) (wave_type : String)
    (freq duration sample_rate : ℚ) : Except String (List ℚ) :=
  let periods := intPy (freq * duration)
  let duration' := ((periods : ℤ) : ℚ) / freq
  let n := (intPy (sample_rate * duration')).toNat
  let t := linspaceNoEndQ 0 duration' n
  match rawWave sin2pi wave_type freq t with
  | .error s => .error s
  | .ok wave => .ok (if wave_type = "square" then wave.map (fun x => x * (2 / 5)) else wave)

/-- Lines 161-167 of `generate_waveform`: the three effect toggles, applied in
the source order phaser, then echo, then chorus, each with the default
parameters the source passes (phaser depth 0.001 rate 0.5; echo delay 0.15
decay 0.25; chorus depth 0.002 rate 1.5 voices 3). -/
def effectsStage (sin2pi : ℚ → ℚ) (phaser_on echo_on chorus_on : Bool)
    (sample_rate : ℚ) (wave : List ℚ) : List ℚ :=
  let w1 := if phaser_on then apply_phaser sin2pi wave sample_rate (1 / 1000) (1 / 2) else wave
  let w2 := if echo_on then apply_echo w1 sample_rate (3 / 20) (1 / 4) else w1
  if chorus_on then apply_chorus sin2pi w2 sample_rate (1 / 500) (3 / 2) 3 else w2

/-- Conversion of an integer to `np.int16`: wraparound modulo `2^16` into
`[-32768, 32767]` (no saturation). -/
def int16Wrap (z : ℤ) : ℤ := (z + 32768) % 65536 - 32768

/-- Lines 169-172 of `generate_waveform`: volume scaling followed by
`np.int16(wave * 32767)` (truncation toward zero, wraparound conversion). -/
def render (volume : ℚ) (wave : List ℚ) : List ℤ :=
  ((wave.map (fun x => volume * x)).map (fun x => int16Wrap (intPy (x * 32767))))

/-- `generate_waveform(wave_type, freq, duration, sample_rate, volume)`
(lines 143-172), with the three global effect toggles passed explicitly. -/
def generate_waveform (sin2pi : ℚ → ℚ) (phaser_on echo_on chorus_on : Bool)
    (wave_type : String) (freq duration sample_rate volume : ℚ) :
    Except String (List ℤ) :=
  match oscillator sin2pi wave_type freq duration sample_rate with
  | .error s => .error s
  | .ok wave => .ok (render volume (effectsStage sin2pi phaser_on echo_on chorus_on sample_rate wave))

/-- `semitone_freq(base_freq, semitone_offset)` (lines 19-20):
`base_freq * 2 ** (semitone_offset / 12)` over the reals. -/
noncomputable def semitone_freq (base_freq : ℝ) (semitone_offset : ℤ) : ℝ :=
  base_freq * (2 : ℝ) ^ (((semitone_offset : ℝ)) / 12)

/-- Peak amplitude `max_i |w[i]|` of a buffer (0 for the empty buffer). -/
def peakAmp (w : List ℚ) : ℚ := w.foldr (fun x m => max |x| m) 0

/-- The constant-zero instantiation of the `sin2pi` parameter, used to
evaluate the pipeline at concrete inputs whose conclusion does not depend on
the sine values. -/
def sinZero : ℚ → ℚ := fun _ => 0

/-- Exact table of `x ↦ sin (2πx)` on quarter-cycle points: agrees with
`Real.sin (2πx)` whenever `4x` is an integer (proved in
`sinQuarter_models_sin`), and is 0 elsewhere. -/
def sinQuarter (x : ℚ) : ℚ :=
  if Int.fract x = 0 then 0
  else if Int.fract x = 1 / 4 then 1
  else if Int.fract x = 1 / 2 then 0
  else if Int.fract x = 3 / 4 then -1 else 0

/-- Written from the claim's words (C2), to be compared with `apply_chorus`:
for each voice the delayed index is `i - ⌊lfo_v(i) * sample_rate⌋` (floor),
clamped to `[0, N-1]`, the delayed value is linear-interpolated and added,
scaled by `0.5 / voices`, to an output initialised to `0.5 * wave`. -/
def chorusClaim (sin2pi : ℚ → ℚ) (wave : List ℚ) (sample_rate depth rate : ℚ)
    (voices : ℕ) : List ℚ :=
  (List.range wave.length).map (fun (i : ℕ) =>
    wave.getD i 0 * (1 / 2) +
      ((List.range voices).map (fun (v : ℕ) =>
        let lfo := depth * sin2pi (rate * ((v : ℚ) + 1) * (i : ℚ) / sample_rate)
        let idx := clipQ ((i : ℚ) - ((⌊lfo * sample_rate⌋ : ℤ) : ℚ)) 0
          ((wave.length : ℚ) - 1)
        interpQ wave idx * (1 / 2 / (voices : ℚ)))).sum)

/-! ### Helper lemmas -/

/-- Reading a mapped range list inside its bounds. -/
theorem getD_rangeMap (f : ℕ → ℚ) {n i : ℕ} (h : i < n) :
    ((List.range n).map f).getD i 0 = f i := by
  rw [List.getD_eq_getElem?_getD, List.getElem?_map, List.getElem?_range h]
  rfl

theorem length_rangeMap (f : ℕ → ℚ) (n : ℕ) :
    ((List.range n).map f).length = n := by simp

theorem intPy_of_nonneg {q : ℚ} (h : 0 ≤ q) : intPy q = ⌊q⌋ := by
  simp [intPy, h]

theorem linspaceNoEndQ_length (a b : ℚ) (k : ℕ) :
    (linspaceNoEndQ a b k).length = k := by simp [linspaceNoEndQ]

theorem linspaceQ_getD (a b : ℚ) {k j : ℕ} (hk : 2 ≤ k) (hj : j < k) :
    (linspaceQ a b k).getD j 0 = a + (b - a) * (j : ℚ) / ((k - 1 : ℕ) : ℚ) := by
  have h0 : k ≠ 0 := by omega
  have h1 : k ≠ 1 := by omega
  rw [linspaceQ, if_neg h0, if_neg h1, getD_rangeMap _ hj]

theorem effectsStage_off (sin2pi : ℚ → ℚ) (sr : ℚ) (w : List ℚ) :
    effectsStage sin2pi false false false sr w = w := rfl

theorem render_length (volume : ℚ) (w : List ℚ) :
    (render volume w).length = w.length := by simp [render]

theorem phaserMix_length (sin2pi : ℚ → ℚ) (w : List ℚ) (sr depth rate : ℚ) :
    (phaserMix sin2pi w sr depth rate).length = w.length := by simp [phaserMix]

theorem applyFades_first (out : List ℚ) (fs : ℕ) (h2 : 2 ≤ fs)
    (hn : fs ≤ out.length) : (applyFades out fs).getD 0 0 = 0 := by
  have h0 : 0 < out.length := by omega
  simp only [applyFades]
  rw [getD_rangeMap _ h0]
  have hfi : (linspaceQ 0 1 fs).getD 0 0 = 0 := by
    rw [linspaceQ_getD 0 1 h2 (by omega)]; simp
  rw [if_pos (by omega : 0 < fs), hfi, mul_zero]
  split <;> simp

theorem applyFades_last (out : List ℚ) (fs : ℕ) (h2 : 2 ≤ fs)
    (hn : fs ≤ out.length) : (applyFades out fs).getD (out.length - 1) 0 = 0 := by
  have h0 : out.length - 1 < out.length := by omega
  simp only [applyFades]
  rw [getD_rangeMap _ h0]
  rw [if_pos (by omega : out.length - fs ≤ out.length - 1)]
  have hidx : out.length - 1 - (out.length - fs) = fs - 1 := by omega
  rw [hidx]
  have hfo : (linspaceQ 1 0 fs).getD (fs - 1) 0 = 0 := by
    rw [linspaceQ_getD 1 0 h2 (by omega)]
    have hne : ((fs - 1 : ℕ) : ℚ) ≠ 0 := Nat.cast_ne_zero.mpr (by omega)
    rw [mul_div_assoc, div_self hne]; ring
  rw [hfo, mul_zero]

theorem oscillator_ok_length (sin2pi : ℚ → ℚ) (wt : String)
    (hwt : wt ∈ (["sine", "square", "triangle"] : List String)) (f d sr : ℚ) :
    ∃ w, oscillator sin2pi wt f d sr = .ok w ∧
      w.length = (intPy (sr * ((intPy (f * d) : ℚ) / f))).toNat := by
  simp only [List.mem_cons, List.not_mem_nil, or_false] at hwt
  rcases hwt with rfl | rfl | rfl
  · exact ⟨_, rfl, by simp [linspaceNoEndQ]⟩
  · exact ⟨_, rfl, by simp [linspaceNoEndQ]⟩
  · exact ⟨_, rfl, by simp [linspaceNoEndQ]⟩

theorem generate_ok_length (sin2pi : ℚ → ℚ) (wt : String)
    (hwt : wt ∈ (["sine", "square", "triangle"] : List String)) (f d sr vol : ℚ) :
    ∃ l, generate_waveform sin2pi false false false wt f d sr vol = .ok l ∧
      l.length = (intPy (sr * ((intPy (f * d) : ℚ) / f))).toNat := by
  obtain ⟨w, hw, hlen⟩ := oscillator_ok_length sin2pi wt hwt f d sr
  refine ⟨render vol (effectsStage sin2pi false false false sr w), ?_, ?_⟩
  · simp [generate_waveform, hw]
  · rw [effectsStage_off, render_length, hlen]

/-! ### Claim theorems -/

/-- C3: the claim says a frequency/duration pair with `floor(f*d) == 0` is
rejected with a `DegenerateDuration` error before entering the oscillator.
The code has no such check: at `freq = 440`, `duration = 0.001`
(`freq * duration = 0.44`, zero whole periods) `generate_waveform` silently
returns an empty buffer instead of raising. -/
theorem C3_zero_periods_not_rejected :
    generate_waveform sinZero false false false "sine" 440 (1 / 1000) 44100 (1 / 10) =
      .ok [] := by rfl

/-- C7: the voice renderer multiplies each float sample by the volume, scales
by 32767, truncates toward zero and wraps modulo `2^16` into int16 with no
saturating clamp; the concrete sample value `2` at volume `1` wraps to `-2`
rather than saturating at `32767`. -/
theorem C7_render_truncate_wrap :
    (∀ (volume : ℚ) (w : List ℚ),
        render volume w = w.map (fun x => int16Wrap (intPy (volume * x * 32767)))) ∧
      render 1 [2] = [-2] ∧ ((-2 : ℤ) ≠ 32767) := by
  refine ⟨fun volume w => ?_, by decide, by decide⟩
  simp [render, List.map_map, Function.comp_def]

/-- C9: the frequency mapper is the total function
`base * 2 ^ (offset / 12)`; at reference 440 Hz, offsets 0, 12 and -12 give
exactly 440, 880 and 220. -/
theorem C9_semitone_freq :
    (∀ (b : ℝ) (k : ℤ), semitone_freq b k = b * (2 : ℝ) ^ ((k : ℝ) / 12)) ∧
      semitone_freq 440 0 = 440 ∧ semitone_freq 440 12 = 880 ∧
      semitone_freq 440 (-12) = 220 := by
  refine ⟨fun b k => rfl, ?_, ?_, ?_⟩
  · simp [semitone_freq]
  · have h : (((12 : ℤ) : ℝ)) / 12 = 1 := by norm_num
    rw [semitone_freq, h, Real.rpow_one]; norm_num
  · have h : (((-12 : ℤ) : ℝ)) / 12 = -1 := by norm_num
    rw [semitone_freq, h, Real.rpow_neg_one]; norm_num

/-- C4: for a delay of `delay_samples` strictly between 0 and the input
length, `apply_echo` keeps the length and sample `i` equals `w[i]` below the
delay and `w[i] + decay * w[i - delay_samples]` from the delay on; the echo
tail past the end is discarded. -/
theorem C4_echo_formula (w : List ℚ) (sr ds dc : ℚ)
    (h0 : 0 < (intPy (ds * sr)).toNat)
    (hN : (intPy (ds * sr)).toNat < w.length) :
    (apply_echo w sr ds dc).length = w.length ∧
      ∀ i < w.length, (apply_echo w sr ds dc).getD i 0 =
        if i < (intPy (ds * sr)).toNat then w.getD i 0
        else w.getD i 0 + dc * w.getD (i - (intPy (ds * sr)).toNat) 0 := by
  constructor
  · simp [apply_echo]
  · intro i hi
    simp only [apply_echo]
    rw [getD_rangeMap _ hi]
    by_cases h : (intPy (ds * sr)).toNat ≤ i
    · rw [if_pos h, if_neg (Nat.not_lt.mpr h)]
    · rw [if_neg h, if_pos (Nat.not_le.mp h)]

/-- Witness for C4 at `w = [1,2,3,4]`, `sample_rate = 2`, `delay_sec = 1/2`
(so `delay_samples = 1`), `decay = 1/4`. -/
theorem C4_echo_formula_witness :
    0 < (intPy ((1 / 2 : ℚ) * 2)).toNat ∧
      (intPy ((1 / 2 : ℚ) * 2)).toNat < ([1, 2, 3, 4] : List ℚ).length ∧
      ((apply_echo [1, 2, 3, 4] 2 (1 / 2) (1 / 4)).length =
          ([1, 2, 3, 4] : List ℚ).length ∧
        ∀ i < ([1, 2, 3, 4] : List ℚ).length,
          (apply_echo [1, 2, 3, 4] 2 (1 / 2) (1 / 4)).getD i 0 =
            if i < (intPy ((1 / 2 : ℚ) * 2)).toNat
            then ([1, 2, 3, 4] : List ℚ).getD i 0
            else ([1, 2, 3, 4] : List ℚ).getD i 0 +
              (1 / 4) * ([1, 2, 3, 4] : List ℚ).getD
                (i - (intPy ((1 / 2 : ℚ) * 2)).toNat) 0) :=
  ⟨by decide, by decide,
    C4_echo_formula [1, 2, 3, 4] 2 (1 / 2) (1 / 4) (by decide) (by decide)⟩

/-- C5: with the three toggles off the effects chain is the identity on the
oscillator buffer (the renderer then consumes exactly the oscillator output),
and in general the chain applies phaser, then echo, then chorus, in that
fixed order with the source's default parameters. -/
theorem C5_chain_identity_and_order :
    (∀ (sin2pi : ℚ → ℚ) (sr : ℚ) (w : List ℚ),
        effectsStage sin2pi false false false sr w = w) ∧
      (∀ (sin2pi : ℚ → ℚ) (p e c : Bool) (sr : ℚ) (w : List ℚ),
        effectsStage sin2pi p e c sr w =
          (fun w2 => if c then apply_chorus sin2pi w2 sr (1 / 500) (3 / 2) 3 else w2)
            ((fun w1 => if e then apply_echo w1 sr (3 / 20) (1 / 4) else w1)
              ((fun w0 => if p then apply_phaser sin2pi w0 sr (1 / 1000) (1 / 2) else w0)
                w))) ∧
      (∀ (sin2pi : ℚ → ℚ) (wt : String) (f d sr vol : ℚ),
        generate_waveform sin2pi false false false wt f d sr vol =
          Except.map (render vol) (oscillator sin2pi wt f d sr)) := by
  refine ⟨fun _ _ _ => rfl, fun _ _ _ _ _ _ => rfl, fun sin2pi wt f d sr vol => ?_⟩
  cases h : oscillator sin2pi wt f d sr <;>
    simp [generate_waveform, h, Except.map, effectsStage_off]

/-- C8: for `f > 0`, `d ≥ 0`, `sr ≥ 0` (every call the program makes; these
keep the pre-dispatch `np.linspace` sample count nonnegative, so the Python
code reaches the waveform dispatch of lines 148-155), an unrecognised
waveform kind makes the oscillator — and hence `generate_waveform`, for any
effect toggles, since the `raise` precedes the effects — fail with the
`ValueError` and produce no buffer and no substituted default, while each of
the three supported kinds passes the oscillator without error (the enabled
effect stages have their own numpy failure modes at degenerate buffer
lengths, which are outside this claim: the no-effects render also succeeds). -/
theorem C8_invalid_waveform :
    ∀ (sin2pi : ℚ → ℚ) (p e c : Bool) (wt : String) (f d sr vol : ℚ),
      0 < f → 0 ≤ d → 0 ≤ sr →
      (wt ∉ (["sine", "square", "triangle"] : List String) →
        oscillator sin2pi wt f d sr = .error "Invalid wave_type." ∧
          generate_waveform sin2pi p e c wt f d sr vol = .error "Invalid wave_type.") ∧
        (wt ∈ (["sine", "square", "triangle"] : List String) →
          (∃ w, oscillator sin2pi wt f d sr = .ok w) ∧
            ∃ l, generate_waveform sin2pi false false false wt f d sr vol = .ok l) := by
  intro sin2pi p e c wt f d sr vol hf hd hsr
  constructor
  · intro h
    simp only [List.mem_cons, List.not_mem_nil, or_false, not_or] at h
    obtain ⟨h1, h2, h3⟩ := h
    constructor
    · simp [oscillator, rawWave, h1, h2, h3]
    · simp [generate_waveform, oscillator, rawWave, h1, h2, h3]
  · intro h
    simp only [List.mem_cons, List.not_mem_nil, or_false] at h
    rcases h with rfl | rfl | rfl <;> exact ⟨⟨_, rfl⟩, ⟨_, rfl⟩⟩

/-- Witness for C8 at `f = 440`, `d = 3`, `sr = 44100`: the kind `"noise"` is
rejected with the error and no buffer; the kind `"sine"` passes the
oscillator and the no-effects render succeeds. -/
theorem C8_invalid_waveform_witness :
    ((0 : ℚ) < 440 ∧ (0 : ℚ) ≤ 3 ∧ (0 : ℚ) ≤ 44100) ∧
      ("noise" ∉ (["sine", "square", "triangle"] : List String) ∧
        oscillator sinZero "noise" 440 3 44100 = .error "Invalid wave_type." ∧
        generate_waveform sinZero false false false "noise" 440 3 44100 (1 / 10) =
          .error "Invalid wave_type.") ∧
      ("sine" ∈ (["sine", "square", "triangle"] : List String) ∧
        (∃ w, oscillator sinZero "sine" 440 3 44100 = .ok w) ∧
        ∃ l, generate_waveform sinZero false false false "sine" 440 3 44100
          (1 / 10) = .ok l) :=
  ⟨⟨by decide, by decide, by decide⟩,
    ⟨by decide,
      ((C8_invalid_waveform sinZero false false false "noise" 440 3 44100 (1 / 10)
        (by decide) (by decide) (by decide)).1 (by decide)).1,
      ((C8_invalid_waveform sinZero false false false "noise" 440 3 44100 (1 / 10)
        (by decide) (by decide) (by decide)).1 (by decide)).2⟩,
    ⟨by decide,
      ((C8_invalid_waveform sinZero false false false "sine" 440 3 44100 (1 / 10)
        (by decide) (by decide) (by decide)).2 (by decide)).1,
      ((C8_invalid_waveform sinZero false false false "sine" 440 3 44100 (1 / 10)
        (by decide) (by decide) (by decide)).2 (by decide)).2⟩⟩

/-- C10: when the buffer is at least as long as the fade (and the fade is at
least 2 samples, as it is at the source's sample rate 44100 where it is 441),
the phaser's first and last output samples are exactly zero: the fade-in ramp
starts at factor 0 and the fade-out ramp ends at factor 0. -/
theorem C10_phaser_edge_zeros (sin2pi : ℚ → ℚ) (w : List ℚ) (sr depth rate : ℚ)
    (h2 : 2 ≤ fadeSamples sr) (hn : fadeSamples sr ≤ w.length) :
    (apply_phaser sin2pi w sr depth rate).getD 0 0 = 0 ∧
      (apply_phaser sin2pi w sr depth rate).getD (w.length - 1) 0 = 0 := by
  have hm : (phaserMix sin2pi w sr depth rate).length = w.length :=
    phaserMix_length sin2pi w sr depth rate
  constructor
  · exact applyFades_first _ _ h2 (by rw [hm]; exact hn)
  · have h := applyFades_last (phaserMix sin2pi w sr depth rate) (fadeSamples sr)
      h2 (by rw [hm]; exact hn)
    rwa [hm] at h

/-- C1 (amended): the rendered buffer length is
`floor(sample_rate * periods / f)` with `periods = floor(f * d)` — Python's
`int(...)` truncates, it does not round; the claim's `round` fails (see the
counterexample). -/
theorem C1_buffer_length_floor (sin2pi : ℚ → ℚ) (wt : String)
    (hwt : wt ∈ (["sine", "square", "triangle"] : List String)) (f d sr vol : ℚ)
    (hf : 0 < f) (hfd : 1 ≤ f * d) (hsr : 0 ≤ sr) :
    ∃ l, generate_waveform sin2pi false false false wt f d sr vol = .ok l ∧
      l.length = (⌊sr * ((⌊f * d⌋ : ℚ) / f)⌋).toNat := by
  obtain ⟨l, hl, hlen⟩ := generate_ok_length sin2pi wt hwt f d sr vol
  refine ⟨l, hl, ?_⟩
  have hfd0 : (0 : ℚ) ≤ f * d := le_trans zero_le_one hfd
  have hfl : (0 : ℚ) ≤ (⌊f * d⌋ : ℚ) := by
    exact_mod_cast Int.floor_nonneg.mpr hfd0
  rw [hlen, intPy_of_nonneg hfd0,
    intPy_of_nonneg (mul_nonneg hsr (div_nonneg hfl hf.le))]

/-- Counterexample to C1 as stated: at the sine waveform with `f = 881/2`,
`d = 1`, `sample_rate = 44100` the rendered length is 44049 (truncation of
`44100 * 440 / (881/2) ≈ 44049.94`), while the claim's
`round(sample_rate * periods / f)` is 44050. -/
theorem C1_round_counterexample :
    (∃ l, generate_waveform sinZero false false false "sine" (881 / 2) 1 44100
        (1 / 10) = .ok l ∧ l.length = 44049) ∧
      round ((44100 : ℚ) * ((⌊(881 / 2 : ℚ) * 1⌋ : ℚ)) / (881 / 2)) = 44050 ∧
      (44049 : ℕ) ≠ 44050 := by
  refine ⟨?_, by decide, by decide⟩
  obtain ⟨l, hl, hlen⟩ :=
    generate_ok_length sinZero "sine" (by decide) (881 / 2) 1 44100 (1 / 10)
  exact ⟨l, hl, by rw [hlen]; decide⟩

/-- Witness for C1 at the spec's concrete scenario: sine, 440 Hz, 3 s,
44100 Hz — 132300 samples. -/
theorem C1_buffer_length_floor_witness :
    "sine" ∈ (["sine", "square", "triangle"] : List String) ∧ (0 : ℚ) < 440 ∧
      (1 : ℚ) ≤ 440 * 3 ∧ (0 : ℚ) ≤ 44100 ∧
      (∃ l, generate_waveform sinZero false false false "sine" 440 3 44100
          (1 / 10) = .ok l ∧
        l.length = (⌊(44100 : ℚ) * ((⌊(440 : ℚ) * 3⌋ : ℚ) / 440)⌋).toNat) ∧
      (⌊(44100 : ℚ) * ((⌊(440 : ℚ) * 3⌋ : ℚ) / 440)⌋).toNat = 132300 :=
  ⟨by decide, by decide, by decide, by decide,
    C1_buffer_length_floor sinZero "sine" (by decide) 440 3 44100 (1 / 10) (by decide)
      (by decide) (by decide), by decide⟩

/-- Witness for C10 at `sample_rate = 200` (fade of 2 samples) on the
two-sample buffer `[5, 7]`. -/
theorem C10_phaser_edge_zeros_witness :
    2 ≤ fadeSamples 200 ∧ fadeSamples 200 ≤ ([5, 7] : List ℚ).length ∧
      ((apply_phaser sinZero [5, 7] 200 (1 / 1000) (1 / 2)).getD 0 0 = 0 ∧
        (apply_phaser sinZero [5, 7] 200 (1 / 1000) (1 / 2)).getD
          (([5, 7] : List ℚ).length - 1) 0 = 0) :=
  ⟨by decide, by decide,
    C10_phaser_edge_zeros sinZero [5, 7] 200 (1 / 1000) (1 / 2) (by decide) (by decide)⟩

/-- C2 (amended): the chorus reads from delayed index
`i - trunc(lfo_v(i) * sample_rate)` — numpy's `.astype(int)` truncates toward
zero, it does not floor — clamps into `[0, N-1]`, linear-interpolates, and
adds the delayed value scaled by `0.5 / voices` to an output initialised to
`0.5 * w`. -/
theorem C2_chorus_pointwise (sin2pi : ℚ → ℚ) (w : List ℚ) (sr depth rate : ℚ)
    (voices : ℕ) (i : ℕ) (hi : i < w.length) :
    (apply_chorus sin2pi w sr depth rate voices).getD i 0 =
      w.getD i 0 * (1 / 2) +
        ((List.range voices).map (fun (v : ℕ) =>
          interpQ w (clipQ ((i : ℚ) -
              ((intPy (depth * sin2pi (rate * ((v : ℚ) + 1) * (i : ℚ) / sr) * sr) : ℤ) : ℚ))
            0 ((w.length : ℚ) - 1)))).sum * (1 / 2 / (voices : ℚ)) := by
  simp only [apply_chorus]
  rw [getD_rangeMap _ hi, List.sum_map_mul_right]

/-- Witness for C2 on the two-sample buffer `[3, 5]` with one voice. -/
theorem C2_chorus_pointwise_witness :
    0 < ([3, 5] : List ℚ).length ∧
      (apply_chorus sinZero [3, 5] 1 0 0 1).getD 0 0 =
        ([3, 5] : List ℚ).getD 0 0 * (1 / 2) +
          ((List.range 1).map (fun (v : ℕ) =>
            interpQ [3, 5] (clipQ ((0 : ℚ) -
                ((intPy (0 * sinZero (0 * ((v : ℚ) + 1) * (0 : ℚ) / 1) * 1) : ℤ) : ℚ))
              0 ((([3, 5] : List ℚ).length : ℚ) - 1)))).sum * (1 / 2 / ((1 : ℕ) : ℚ)) :=
  ⟨by decide, C2_chorus_pointwise sinZero [3, 5] 1 0 0 1 0 (by decide)⟩

/-- Counterexample to C2 as stated: the claim's delayed index uses `floor`,
the code truncates toward zero. On the buffer `[10,20,30,40,50,60]` with
`sample_rate = 4`, `depth = 3/10`, `rate = 1`, one voice, the LFO at sample 3
is `sin(3π/2) = -1` (the first conjunct ties the rational sine table used here
to `Real.sin` at every point the computation reads), so the modulated delay is
`-1.2`: the code truncates to `-1` and reads `w[4] = 50`, the claim floors to
`-2` and reads `w[5] = 60`, and the outputs differ at sample 3 (45 vs 50). -/
theorem C2_floor_counterexample :
    (∀ k : ℕ, k < 6 →
        ((sinQuarter ((k : ℚ) / 4) : ℚ) : ℝ) = Real.sin (2 * Real.pi * (k : ℝ) / 4)) ∧
      apply_chorus sinQuarter [10, 20, 30, 40, 50, 60] 4 (3 / 10) 1 1 ≠
        chorusClaim sinQuarter [10, 20, 30, 40, 50, 60] 4 (3 / 10) 1 1 := by
  constructor
  · intro k hk
    interval_cases k
    · have h : sinQuarter (((0 : ℕ) : ℚ) / 4) = 0 := by decide
      rw [h]; push_cast; simp
    · have h : sinQuarter (((1 : ℕ) : ℚ) / 4) = 1 := by decide
      rw [h]; push_cast
      rw [show 2 * Real.pi * 1 / 4 = Real.pi / 2 by ring, Real.sin_pi_div_two]
    · have h : sinQuarter (((2 : ℕ) : ℚ) / 4) = 0 := by decide
      rw [h]; push_cast
      rw [show 2 * Real.pi * 2 / 4 = Real.pi by ring, Real.sin_pi]
    · have h : sinQuarter (((3 : ℕ) : ℚ) / 4) = -1 := by decide
      rw [h]; push_cast
      rw [show 2 * Real.pi * 3 / 4 = Real.pi / 2 + Real.pi by ring,
        Real.sin_add_pi, Real.sin_pi_div_two]
    · have h : sinQuarter (((4 : ℕ) : ℚ) / 4) = 0 := by decide
      rw [h]; push_cast
      rw [show 2 * Real.pi * 4 / 4 = 0 + 2 * Real.pi by ring,
        Real.sin_add_two_pi, Real.sin_zero]
    · have h : sinQuarter (((5 : ℕ) : ℚ) / 4) = 1 := by decide
      rw [h]; push_cast
      rw [show 2 * Real.pi * 5 / 4 = Real.pi / 2 + 2 * Real.pi by ring,
        Real.sin_add_two_pi, Real.sin_pi_div_two]
  · decide

theorem peakAmp_nonneg (w : List ℚ) : 0 ≤ peakAmp w := by
  induction w with
  | nil => simp [peakAmp]
  | cons a l ih => exact le_trans ih (le_max_right _ _)

theorem abs_getD_le_peakAmp (w : List ℚ) (i : ℕ) : |w.getD i 0| ≤ peakAmp w := by
  induction w generalizing i with
  | nil => simp [peakAmp]
  | cons a l ih =>
    cases i with
    | zero => exact le_max_left _ _
    | succ n => exact le_trans (ih n) (le_max_right _ _)

theorem abs_interpQ_le_peakAmp (w : List ℚ) (x : ℚ) :
    |interpQ w x| ≤ peakAmp w := by
  unfold interpQ
  split
  · exact abs_getD_le_peakAmp w 0
  · split
    · exact abs_getD_le_peakAmp w _
    · rename_i h1 h2
      have hx0 : 0 < x := not_le.mp h1
      show |w.getD (⌊x⌋).toNat 0 + (x - ((⌊x⌋).toNat : ℚ)) *
        (w.getD ((⌊x⌋).toNat + 1) 0 - w.getD (⌊x⌋).toNat 0)| ≤ peakAmp w
      set j := (⌊x⌋).toNat with hj_def
      have hj : (j : ℚ) = ((⌊x⌋ : ℤ) : ℚ) := by
        have h0 : 0 ≤ ⌊x⌋ := Int.floor_nonneg.mpr hx0.le
        rw [hj_def]; exact_mod_cast Int.toNat_of_nonneg h0
      have ht0 : 0 ≤ x - (j : ℚ) := by
        rw [hj]; exact sub_nonneg.mpr (Int.floor_le x)
      have ht1 : x - (j : ℚ) ≤ 1 := by
        rw [hj]; have := Int.lt_floor_add_one x; linarith
      have ha := abs_getD_le_peakAmp w j
      have hb := abs_getD_le_peakAmp w (j + 1)
      have hp := peakAmp_nonneg w
      rw [abs_le] at ha hb ⊢
      constructor
      · nlinarith [mul_nonneg (by linarith : (0 : ℚ) ≤ 1 - (x - (j : ℚ)))
          (by linarith : (0 : ℚ) ≤ w.getD j 0 + peakAmp w),
          mul_nonneg ht0 (by linarith : (0 : ℚ) ≤ w.getD (j + 1) 0 + peakAmp w)]
      · nlinarith [mul_nonneg (by linarith : (0 : ℚ) ≤ 1 - (x - (j : ℚ)))
          (by linarith : (0 : ℚ) ≤ peakAmp w - w.getD j 0),
          mul_nonneg ht0 (by linarith : (0 : ℚ) ≤ peakAmp w - w.getD (j + 1) 0)]

theorem abs_list_sum_le (l : List ℚ) (c : ℚ) (h : ∀ x ∈ l, |x| ≤ c) :
    |l.sum| ≤ l.length * c := by
  induction l with
  | nil => simp
  | cons a t ih =>
    have ha := h a (by simp)
    have ht := ih (fun x hx => h x (by simp [hx]))
    have habs : |a + t.sum| ≤ |a| + |t.sum| := abs_add _ _
    have : |(a :: t).sum| ≤ |a| + |t.sum| := by simpa using habs
    calc |(a :: t).sum| ≤ |a| + |t.sum| := this
      _ ≤ c + t.length * c := by linarith
      _ = (a :: t).length * c := by push_cast [List.length_cons]; ring

theorem abs_rangeMap_sum_le (g : ℕ → ℚ) (k : ℕ) (c : ℚ) (h : ∀ v, |g v| ≤ c) :
    |((List.range k).map g).sum| ≤ (k : ℚ) * c := by
  have hl := abs_list_sum_le ((List.range k).map g) c
    (fun x hx => by obtain ⟨v, _, rfl⟩ := List.mem_map.mp hx; exact h v)
  simpa using hl

theorem chorus_voice_sum_bound (sin2pi : ℚ → ℚ) (w : List ℚ)
    (sr depth rate : ℚ) (voices : ℕ) (hv : 1 ≤ voices) (i : ℕ) :
    |((List.range voices).map (fun (v : ℕ) =>
        interpQ w (clipQ ((i : ℚ) -
            ((intPy (depth * sin2pi (rate * ((v : ℚ) + 1) * (i : ℚ) / sr) * sr) : ℤ) : ℚ))
          0 ((w.length : ℚ) - 1)) * (1 / 2 / (voices : ℚ)))).sum| ≤
      peakAmp w * (1 / 2) := by
  have hvQ : (0 : ℚ) < (voices : ℚ) := by exact_mod_cast hv
  have hc : (0 : ℚ) ≤ 1 / 2 / (voices : ℚ) := by positivity
  have hb := abs_rangeMap_sum_le (fun (v : ℕ) =>
      interpQ w (clipQ ((i : ℚ) -
          ((intPy (depth * sin2pi (rate * ((v : ℚ) + 1) * (i : ℚ) / sr) * sr) : ℤ) : ℚ))
        0 ((w.length : ℚ) - 1)) * (1 / 2 / (voices : ℚ)))
    voices (peakAmp w * (1 / 2 / (voices : ℚ)))
    (fun v => by
      rw [abs_mul, abs_of_nonneg hc]
      exact mul_le_mul_of_nonneg_right (abs_interpQ_le_peakAmp w _) hc)
  have heq : (voices : ℚ) * (peakAmp w * (1 / 2 / (voices : ℚ))) =
      peakAmp w * (1 / 2) := by field_simp; ring
  rw [heq] at hb
  exact hb

/-- C6: every chorus output sample is bounded in absolute value by
`(0.5 + 0.5) * max_i |w[i]|` — half from the `0.5 * w` initialisation, half
from the `voices` delayed copies each scaled by `0.5 / voices` — so the chorus
never exceeds the input's peak amplitude. -/
theorem C6_chorus_bound (sin2pi : ℚ → ℚ) (w : List ℚ) (sr depth rate : ℚ)
    (voices : ℕ) (hv : 1 ≤ voices) (i : ℕ) (hi : i < w.length) :
    |(apply_chorus sin2pi w sr depth rate voices).getD i 0| ≤
      (1 / 2 + 1 / 2) * peakAmp w := by
  simp only [apply_chorus]
  rw [getD_rangeMap _ hi]
  have hp : 0 ≤ peakAmp w := peakAmp_nonneg w
  have h1 : |w.getD i 0 * (1 / 2)| ≤ peakAmp w * (1 / 2) := by
    rw [abs_mul, abs_of_nonneg (by norm_num : (0 : ℚ) ≤ 1 / 2)]
    exact mul_le_mul_of_nonneg_right (abs_getD_le_peakAmp w i) (by norm_num)
  have h2 := chorus_voice_sum_bound sin2pi w sr depth rate voices hv i
  refine le_trans (abs_add _ _) (le_trans (add_le_add h1 h2) (le_of_eq ?_))
  ring

/-- Witness for C6 on the buffer `[1, -2]` with one voice. -/
theorem C6_chorus_bound_witness :
    1 ≤ 1 ∧ 0 < ([1, -2] : List ℚ).length ∧
      |(apply_chorus sinZero [1, -2] 1 0 0 1).getD 0 0| ≤
        (1 / 2 + 1 / 2) * peakAmp [1, -2] :=
  ⟨le_refl 1, by decide, C6_chorus_bound sinZero [1, -2] 1 0 0 1 (le_refl 1) 0 (by decide)⟩

end WaveGenerator
